import Mathlib

/-!
# Verification of the search-latency benchmark core

A shallow embedding of `search_latency_bench/benchmark.py`.

Modelling conventions:
* Latencies (milliseconds) are rationals `ℚ`; the Python code uses floats but
  every claim here is about exact structural equalities of the computation.
* A backend engine is a function `String → Nat → Except String (List String)`:
  it gets the query and the result-count bound and either returns a URL list
  or fails with a textual error (a raised exception's `str(e)`).
* Elapsed wall-clock time around one call is an oracle `elapsed : String → ℚ`
  giving the measured milliseconds for each query (measured to the point of
  return or of failure; the code computes `(end_time - start_time) * 1000`).
* `asyncio.gather(*coros)` returns one value per coroutine, in the order the
  coroutines were passed, so the parallel batch is a `List.map` at the level
  of returned values; the semaphore bounds timing only, and is modelled
  separately as a small-step scheduler for the concurrency claim.
* Timestamps and the rich progress display do not influence any claimed
  value and are omitted.
-/

/-- `SearchResult` from `types.py` (timestamp omitted: it never feeds a
claimed value). -/
structure SearchResult where
  success : Bool
  api : String
  query : String
  latency_ms : ℚ
  result_urls : List String
  status_code : Option Nat
  error : Option String
  deriving Repr, DecidableEq

/-- `LatencyStats` from `types.py`. -/
structure LatencyStats where
  min : ℚ
  p50 : ℚ
  p90 : ℚ
  p95 : ℚ
  p99 : ℚ
  max : ℚ
  mean : ℚ
  deriving Repr, DecidableEq

/-- `BenchmarkSummary` from `types.py` (`by_search_type` omitted: never set
by the core). -/
structure BenchmarkSummary where
  total_queries : Nat
  successful_queries : Nat
  failed_queries : Nat
  latency : Option LatencyStats
  deriving Repr, DecidableEq

/-- `process_single_query` from `benchmark.py`: one timed adapter call.
On `Except.ok urls` it builds the success record with status code 200; on
`Except.error e` it builds the failure record carrying `e` and the elapsed
time measured up to the failure point. The Lean function is total: no
failure escapes. -/
def process_single_query (engine : String → Nat → Except String (List String))
    (elapsed : String → ℚ) (query : String) (num_results : Nat)
    (api_name : String) : SearchResult :=
  match engine query num_results with
  | Except.ok urls =>
      { success := true
        api := api_name
        query := query
        latency_ms := elapsed query
        result_urls := urls
        status_code := some 200
        error := none }
  | Except.error e =>
      { success := false
        api := api_name
        query := query
        latency_ms := elapsed query
        result_urls := []
        status_code := none
        error := some e }

/-- `process_batch_parallel` from `benchmark.py`, at the level of returned
values: `asyncio.gather` yields one result per submitted coroutine in
submission order, so the returned list is the map of the executor over the
queries. `max_workers` bounds concurrency (timing), not values; it is kept
in the signature for fidelity. -/
def process_batch_parallel (engine : String → Nat → Except String (List String))
    (elapsed : String → ℚ) (queries : List String) (num_results : Nat)
    (api_name : String) (max_workers : Nat) : List SearchResult :=
  let _ := max_workers
  queries.map (fun q => process_single_query engine elapsed q num_results api_name)

/-- `process_batch` from `benchmark.py`: the parallel path is taken exactly
when the flag is set and there is more than one query; otherwise the
sequential loop runs the executor query by query in input order. -/
def process_batch (engine : String → Nat → Except String (List String))
    (elapsed : String → ℚ) (queries : List String) (num_results : Nat)
    (api_name : String) (parallel : Bool) (max_workers : Nat) : List SearchResult :=
  if parallel && decide (1 < queries.length) then
    process_batch_parallel engine elapsed queries num_results api_name max_workers
  else
    queries.map (fun q => process_single_query engine elapsed q num_results api_name)

/-- One observable action of the sequential loop of `process_batch`:
running (and recording) one query, or sleeping 100 ms. -/
inductive BatchEvent where
  | run (query : String)
  | pause
  deriving Repr, DecidableEq

/-- Whether a `BatchEvent` is the 100 ms sleep. -/
def BatchEvent.isPause : BatchEvent → Bool
  | BatchEvent.pause => true
  | BatchEvent.run _ => false

/-- The event trace of the sequential loop of `process_batch`: each
iteration records its result and then, when the whole batch has more than
one query (`if len(queries) > 1`), sleeps 100 ms — the guard tests the
batch size, not the position in the loop. -/
def sequentialTrace (queries : List String) : List BatchEvent :=
  (queries.map (fun q =>
    BatchEvent.run q :: if 1 < queries.length then [BatchEvent.pause] else [])).flatten

/-- Insertion step for sorting rationals ascending. -/
def insertSorted (x : ℚ) : List ℚ → List ℚ
  | [] => [x]
  | y :: ys => if x ≤ y then x :: y :: ys else y :: insertSorted x ys

/-- `sorted(data)` for rationals. -/
def sortList (l : List ℚ) : List ℚ := l.foldr insertSorted []

/-- CPython `statistics.quantiles(data, n, method="inclusive")`: sort the
data, set `m = len - 1`, and for `i = 1 .. n-1` emit
`(data[j]*(n-delta) + data[j+1]*delta) / n` where `j, delta = divmod(i*m, n)`. -/
def quantilesInclusive (data : List ℚ) (n : Nat) : List ℚ :=
  let s := sortList data
  let m := s.length - 1
  (List.range (n - 1)).map (fun k =>
    let i := k + 1
    let j := i * m / n
    let d := i * m % n
    (s.getD j 0 * ((n : ℚ) - (d : ℚ)) + s.getD (j + 1) 0 * (d : ℚ)) / (n : ℚ))

/-- The spec's inclusive-method percentile, stated from its words: for the
sorted sample the rank `p/100 * (len - 1)` interpolates linearly between
the two adjacent samples over the full inclusive range. -/
def inclusivePercentile (data : List ℚ) (p : ℚ) : ℚ :=
  let s := sortList data
  let r := p / 100 * ((s.length - 1 : ℕ) : ℚ)
  let j := ⌊r⌋₊
  s.getD j 0 + (r - (j : ℚ)) * (s.getD (j + 1) 0 - s.getD j 0)

/-- Python `min` over a nonempty list (0 on the empty list, never reached). -/
def pyMin : List ℚ → ℚ
  | [] => 0
  | x :: xs => xs.foldl min x

/-- Python `max` over a nonempty list (0 on the empty list, never reached). -/
def pyMax : List ℚ → ℚ
  | [] => 0
  | x :: xs => xs.foldl max x

/-- `calculate_summary_stats` from `benchmark.py`. -/
def calculate_summary_stats (results : List SearchResult) : BenchmarkSummary :=
  let successful := results.filter (fun r => r.success)
  if successful.isEmpty then
    { total_queries := results.length
      successful_queries := 0
      failed_queries := results.length
      latency := none }
  else
    let latency_times := successful.map (fun r => r.latency_ms)
    if latency_times.length = 1 then
      let v := latency_times.getD 0 0
      { total_queries := results.length
        successful_queries := successful.length
        failed_queries := results.length - successful.length
        latency := some ⟨v, v, v, v, v, v, v⟩ }
    else
      let q := quantilesInclusive latency_times 100
      { total_queries := results.length
        successful_queries := successful.length
        failed_queries := results.length - successful.length
        latency := some
          { min := pyMin latency_times
            p50 := q.getD 49 0
            p90 := q.getD 89 0
            p95 := q.getD 94 0
            p99 := q.getD 98 0
            max := pyMax latency_times
            mean := latency_times.sum / (latency_times.length : ℚ) } }

/-- The latencies of the successful results, the list the statistics are
computed over (`latency_times` in `calculate_summary_stats`). -/
def successfulLatencies (results : List SearchResult) : List ℚ :=
  (results.filter (fun r => r.success)).map (fun r => r.latency_ms)

/-- Insert a query into a list already ordered by finishing time, keyed by
the elapsed-time oracle (earlier finishers first, ties keep earlier
submission first). -/
def insertByTime (elapsed : String → ℚ) (q : String) : List String → List String
  | [] => [q]
  | y :: ys =>
      if elapsed q < elapsed y then q :: y :: ys else y :: insertByTime elapsed q ys

/-- The spec's completion order for an unbounded parallel batch, stated
from its words: all queries start together, each finishes after its own
elapsed time, so the completion order lists the queries by increasing
elapsed time (submission order breaking ties). This is the reference to
compare the code's returned order against. -/
def completionOrder (elapsed : String → ℚ) (queries : List String) : List String :=
  queries.foldr (insertByTime elapsed) []

/-- A state of the semaphore-gated parallel scheduler of
`process_batch_parallel`: queries still waiting for the semaphore, queries
whose adapter call is in flight, and finished results. -/
structure SchedState where
  waiting : List String
  running : List String
  done : List SearchResult
  deriving Repr, DecidableEq

/-- The initial scheduler state: every query waits, nothing runs. -/
def SchedState.init (queries : List String) : SchedState :=
  ⟨queries, [], []⟩

/-- One step of the semaphore-gated scheduler of `process_batch_parallel`
with capacity `max_workers`: a waiting query is admitted only while fewer
than `max_workers` calls are in flight (`async with semaphore`), and any
in-flight call may finish, producing its `process_single_query` result. -/
inductive SchedStep (engine : String → Nat → Except String (List String))
    (elapsed : String → ℚ) (num_results : Nat) (api_name : String)
    (max_workers : Nat) : SchedState → SchedState → Prop
  | acquire (q : String) (rest running : List String) (done : List SearchResult) :
      running.length < max_workers →
      SchedStep engine elapsed num_results api_name max_workers
        ⟨q :: rest, running, done⟩ ⟨rest, running ++ [q], done⟩
  | finish (waiting r1 r2 : List String) (q : String) (done : List SearchResult) :
      SchedStep engine elapsed num_results api_name max_workers
        ⟨waiting, r1 ++ q :: r2, done⟩
        ⟨waiting, r1 ++ r2,
          process_single_query engine elapsed q num_results api_name :: done⟩

/-! ## Helper lemmas -/

theorem partition_filter_length {α : Type} (p : α → Bool) (l : List α) :
    (l.filter p).length + (l.filter (fun a => !p a)).length = l.length := by
  induction l with
  | nil => simp
  | cons x xs ih =>
      by_cases h : p x <;> simp [List.filter_cons, h, ← ih] <;> omega

theorem query_process_single (engine : String → Nat → Except String (List String))
    (elapsed : String → ℚ) (q : String) (nr : Nat) (api : String) :
    (process_single_query engine elapsed q nr api).query = q := by
  cases h : engine q nr <;> simp [process_single_query, h]

theorem process_batch_eq_map (engine : String → Nat → Except String (List String))
    (elapsed : String → ℚ) (queries : List String) (nr : Nat) (api : String)
    (par : Bool) (W : Nat) :
    process_batch engine elapsed queries nr api par W =
      queries.map (fun q => process_single_query engine elapsed q nr api) := by
  unfold process_batch process_batch_parallel
  split <;> rfl

/-! ## Claim theorems -/

/-- C4: a single-query batch takes the sequential path regardless of the
parallel flag (no semaphore is constructed on that path), and the output
list is identical whether the flag is true or false. -/
theorem single_query_batch_sequential
    (engine : String → Nat → Except String (List String))
    (elapsed : String → ℚ) (q : String) (nr : Nat) (api : String) (W : Nat) :
    process_batch engine elapsed [q] nr api true W =
      [process_single_query engine elapsed q nr api] ∧
    process_batch engine elapsed [q] nr api true W =
      process_batch engine elapsed [q] nr api false W := by
  simp [process_batch]

/-- C5: one executor invocation always returns a record (the Lean function
is total, so no adapter failure escapes); the measured elapsed time is
always recorded, and the record is the success record with the returned
URLs and status code 200 when the adapter call returns, or the failure
record carrying the failure text when it raises. -/
theorem executor_total_case_analysis
    (engine : String → Nat → Except String (List String))
    (elapsed : String → ℚ) (q : String) (nr : Nat) (api : String) :
    (process_single_query engine elapsed q nr api).latency_ms = elapsed q ∧
    (match engine q nr with
     | Except.ok urls =>
        process_single_query engine elapsed q nr api =
          ⟨true, api, q, elapsed q, urls, some 200, none⟩
     | Except.error e =>
        process_single_query engine elapsed q nr api =
          ⟨false, api, q, elapsed q, [], none, some e⟩) := by
  cases h : engine q nr <;> simp [process_single_query, h]

/-- C6: for every result list (the empty one included) the summary's total
is the list length, total = successful + failed, and the successful and
failed counts partition the list exactly by the success flag. -/
theorem summary_counts (results : List SearchResult) :
    (calculate_summary_stats results).total_queries = results.length ∧
    (calculate_summary_stats results).total_queries =
      (calculate_summary_stats results).successful_queries +
        (calculate_summary_stats results).failed_queries ∧
    (calculate_summary_stats results).successful_queries =
      (results.filter (fun r => r.success)).length ∧
    (calculate_summary_stats results).failed_queries =
      (results.filter (fun r => !r.success)).length := by
  have hpart := partition_filter_length (fun r => r.success) results
  have hle := List.length_filter_le (fun r => r.success) results
  simp only [calculate_summary_stats]
  by_cases h1 : (results.filter (fun r => r.success)).isEmpty = true
  · have h0 : (results.filter (fun r => r.success)).length = 0 := by
      rw [List.isEmpty_iff] at h1; rw [h1]; rfl
    rw [if_pos h1]
    dsimp only
    exact ⟨rfl, by omega, by omega, by omega⟩
  · rw [if_neg h1]
    by_cases h2 :
        ((results.filter (fun r => r.success)).map (fun r => r.latency_ms)).length = 1
    · rw [if_pos h2]
      dsimp only
      exact ⟨rfl, by omega, rfl, by omega⟩
    · rw [if_neg h2]
      dsimp only
      exact ⟨rfl, by omega, rfl, by omega⟩

/-- C7: the summary's latency block is absent exactly when no result
succeeded; with at least one success it is present. -/
theorem latency_presence (results : List SearchResult) :
    (calculate_summary_stats results).latency = none ↔
      (results.filter (fun r => r.success)).length = 0 := by
  simp only [calculate_summary_stats]
  by_cases h1 : (results.filter (fun r => r.success)).isEmpty = true
  · rw [if_pos h1]
    rw [List.isEmpty_iff] at h1
    simp [h1]
  · rw [if_neg h1]
    have h0 : (results.filter (fun r => r.success)).length ≠ 0 := by
      intro hc
      exact h1 (by rw [List.isEmpty_iff, ← List.length_eq_zero]; exact hc)
    by_cases h2 :
        ((results.filter (fun r => r.success)).map (fun r => r.latency_ms)).length = 1
    · rw [if_pos h2]; simp [h0]
    · rw [if_neg h2]; simp [h0]

/-- C8: when exactly one result succeeded, all seven latency statistics
equal that single success's latency. -/
theorem single_success_stats (results : List SearchResult) (r : SearchResult)
    (h : results.filter (fun x => x.success) = [r]) :
    (calculate_summary_stats results).latency =
      some ⟨r.latency_ms, r.latency_ms, r.latency_ms, r.latency_ms,
            r.latency_ms, r.latency_ms, r.latency_ms⟩ := by
  simp [calculate_summary_stats, h]

/-- Witness for C8 at a concrete one-success list. -/
theorem single_success_stats_witness :
    ([SearchResult.mk true "exa" "q" 7 [] (some 200) none,
      SearchResult.mk false "exa" "p" 3 [] none (some "timeout")].filter
        (fun x => x.success) =
      [SearchResult.mk true "exa" "q" 7 [] (some 200) none]) ∧
    (calculate_summary_stats
        [SearchResult.mk true "exa" "q" 7 [] (some 200) none,
         SearchResult.mk false "exa" "p" 3 [] none (some "timeout")]).latency =
      some (LatencyStats.mk 7 7 7 7 7 7 7) :=
  ⟨by decide,
   single_success_stats
     [SearchResult.mk true "exa" "q" 7 [] (some 200) none,
      SearchResult.mk false "exa" "p" 3 [] none (some "timeout")]
     (SearchResult.mk true "exa" "q" 7 [] (some 200) none) (by decide)⟩

/-- C10: in both modes the batch output has one entry per input query and
the entry at position `i` carries the text of input query `i` — under
parallel execution too, because the gather collects results in submission
order. -/
theorem batch_positional (engine : String → Nat → Except String (List String))
    (elapsed : String → ℚ) (queries : List String) (nr : Nat) (api : String)
    (par : Bool) (W : Nat) (i : Nat) :
    (process_batch engine elapsed queries nr api par W).length = queries.length ∧
    (process_batch engine elapsed queries nr api par W)[i]?.map (fun r => r.query) =
      queries[i]? := by
  rw [process_batch_eq_map]
  refine ⟨by simp, ?_⟩
  rw [List.getElem?_map]
  cases hq : queries[i]? with
  | none => rfl
  | some q => simp [query_process_single]

/-- Counterexample to C3: with two queries that both succeed, where the
first takes 2 ms and the second 1 ms, the parallel batch returns the
results in submission order `["a", "b"]` while the completion order is
`["b", "a"]` — the returned list is not in completion order. -/
theorem parallel_order_cex :
    ¬ ((process_batch (fun _ _ => Except.ok ([] : List String))
          (fun q => if q = "a" then 2 else 1) ["a", "b"] 5 "exa" true 20).map
            (fun r => r.query) =
        completionOrder (fun q => if q = "a" then 2 else 1) ["a", "b"]) := by
  decide

/-- C3 as amended: the batch output is in submission (input) order in both
parallel and sequential modes — `asyncio.gather` returns one result per
coroutine in the order they were submitted. -/
theorem batch_submission_order (engine : String → Nat → Except String (List String))
    (elapsed : String → ℚ) (queries : List String) (nr : Nat) (api : String)
    (par : Bool) (W : Nat) :
    (process_batch engine elapsed queries nr api par W).map (fun r => r.query) =
      queries := by
  rw [process_batch_eq_map, List.map_map]
  have hcomp : ((fun r => r.query) ∘
      fun q => process_single_query engine elapsed q nr api) = fun q => q := by
    funext q
    exact query_process_single engine elapsed q nr api
  rw [hcomp, List.map_id']

/-- Counterexample to C2: a 2-query sequential batch produces 2 pauses,
not 2 − 1 = 1, and the trace ends with a pause after the last query. -/
theorem sequential_pause_cex :
    sequentialTrace ["a", "b"] =
      [BatchEvent.run "a", BatchEvent.pause, BatchEvent.run "b", BatchEvent.pause] ∧
    (sequentialTrace ["a", "b"]).countP BatchEvent.isPause = 2 ∧
    ¬ ((sequentialTrace ["a", "b"]).countP BatchEvent.isPause = 2 - 1) := by
  decide

/-- C2 as amended: in the sequential loop a batch of n > 1 queries incurs
exactly n fixed 100 ms pauses — one after each query's result is recorded,
the last query included, because the guard tests the batch size and not the
position — and a batch of at most one query incurs no pause. -/
theorem sequential_pause_count (queries : List String) :
    (sequentialTrace queries).countP BatchEvent.isPause =
      (if 1 < queries.length then queries.length else 0) ∧
    (1 < queries.length →
      sequentialTrace queries =
        (queries.map (fun q => [BatchEvent.run q, BatchEvent.pause])).flatten) := by
  by_cases h : 1 < queries.length
  · refine ⟨?_, fun _ => ?_⟩
    · simp only [sequentialTrace, if_pos h, List.countP_flatten, List.map_map, if_pos h]
      have hblock : (List.countP BatchEvent.isPause ∘ fun q =>
          BatchEvent.run q :: [BatchEvent.pause]) = fun _ => 1 := by
        funext q; rfl
      rw [hblock]
      simp [List.map_const', List.sum_replicate, smul_eq_mul]
    · simp only [sequentialTrace, if_pos h]
  · refine ⟨?_, fun hc => absurd hc h⟩
    simp only [sequentialTrace, if_neg h, List.countP_flatten, List.map_map]
    have hblock : (List.countP BatchEvent.isPause ∘ fun q =>
        BatchEvent.run q :: []) = fun _ => 0 := by
      funext q; rfl
    rw [hblock]
    simp [List.map_const', List.sum_replicate]

/-- Witness for the amended C2 at a concrete 2-query batch. -/
theorem sequential_pause_count_witness :
    1 < (["a", "b"] : List String).length ∧
    sequentialTrace ["a", "b"] =
      ((["a", "b"] : List String).map
        (fun q => [BatchEvent.run q, BatchEvent.pause])).flatten :=
  ⟨by decide, (sequential_pause_count ["a", "b"]).2 (by decide)⟩

/-- C9: at most `W` adapter calls are in flight in any state the
semaphore-gated scheduler can reach: admission requires free capacity, so
the running set never exceeds the ceiling. -/
theorem concurrency_ceiling (engine : String → Nat → Except String (List String))
    (elapsed : String → ℚ) (nr : Nat) (api : String) (W : Nat)
    (queries : List String) (s : SchedState)
    (h : Relation.ReflTransGen (SchedStep engine elapsed nr api W)
          (SchedState.init queries) s) :
    s.running.length ≤ W := by
  induction h with
  | refl => simp [SchedState.init]
  | tail hsteps hstep ih =>
      cases hstep with
      | acquire q rest running done hlt =>
          dsimp only at ih ⊢
          simp only [List.length_append, List.length_cons, List.length_nil]
          omega
      | finish waiting r1 r2 q done =>
          dsimp only at ih ⊢
          simp only [List.length_append, List.length_cons] at ih ⊢
          omega

/-- Witness for C9: a one-step trace admitting a query under ceiling 3. -/
theorem concurrency_ceiling_witness :
    Relation.ReflTransGen
        (SchedStep (fun _ _ => Except.ok ([] : List String)) (fun _ => 1) 5 "exa" 3)
        (SchedState.init ["a"]) ⟨[], ["a"], []⟩ ∧
    (⟨[], ["a"], []⟩ : SchedState).running.length ≤ 3 := by
  have hstep : Relation.ReflTransGen
      (SchedStep (fun _ _ => Except.ok ([] : List String)) (fun _ => 1) 5 "exa" 3)
      (SchedState.init ["a"]) ⟨[], ["a"], []⟩ :=
    Relation.ReflTransGen.single
      (SchedStep.acquire "a" [] [] [] (by decide))
  exact ⟨hstep, concurrency_ceiling _ _ _ _ _ _ _ hstep⟩

theorem quantile_cut_eq (data : List ℚ) (i : Nat) (h1 : 1 ≤ i) (h2 : i < 100) :
    (quantilesInclusive data 100).getD (i - 1) 0 =
      inclusivePercentile data (i : ℚ) := by
  have hrange : i - 1 < 100 - 1 := by omega
  have hi : i - 1 + 1 = i := by omega
  simp only [quantilesInclusive, inclusivePercentile, List.getD_eq_getElem?_getD,
    List.getElem?_map, List.getElem?_range hrange, Option.map_some', Option.getD_some,
    Nat.cast_ofNat]
  rw [hi]
  have hfloor :
      ⌊(i : ℚ) / 100 * (((sortList data).length - 1 : ℕ) : ℚ)⌋₊ =
        i * ((sortList data).length - 1) / 100 := by
    have hr : (i : ℚ) / 100 * (((sortList data).length - 1 : ℕ) : ℚ) =
        ((i * ((sortList data).length - 1) : ℕ) : ℚ) / (((100 : ℕ) : ℚ)) := by
      push_cast
      ring
    rw [hr, Nat.floor_div_nat, Nat.floor_natCast]
  rw [hfloor]
  have hd : (i : ℚ) / 100 * (((sortList data).length - 1 : ℕ) : ℚ) -
      ((i * ((sortList data).length - 1) / 100 : ℕ) : ℚ) =
      ((i * ((sortList data).length - 1) % 100 : ℕ) : ℚ) / 100 := by
    have hdm : 100 * (i * ((sortList data).length - 1) / 100) +
        i * ((sortList data).length - 1) % 100 =
        i * ((sortList data).length - 1) :=
      Nat.div_add_mod (i * ((sortList data).length - 1)) 100
    have hcast : ((i * ((sortList data).length - 1) % 100 : ℕ) : ℚ) =
        (i : ℚ) * (((sortList data).length - 1 : ℕ) : ℚ) -
          100 * ((i * ((sortList data).length - 1) / 100 : ℕ) : ℚ) := by
      have := congrArg (fun n : ℕ => (n : ℚ)) hdm
      push_cast at this
      linarith
    rw [hcast]
    ring
  rw [hd]
  ring

theorem foldl_min_le_init (xs : List ℚ) (a : ℚ) : xs.foldl min a ≤ a := by
  induction xs generalizing a with
  | nil => simp
  | cons y ys ih => exact le_trans (ih (min a y)) (min_le_left a y)

theorem foldl_min_le_mem (xs : List ℚ) (a x : ℚ) (hx : x ∈ xs) :
    xs.foldl min a ≤ x := by
  induction xs generalizing a with
  | nil => cases hx
  | cons y ys ih =>
      rcases List.mem_cons.mp hx with h | h
      · subst h
        exact le_trans (foldl_min_le_init ys (min a x)) (min_le_right a x)
      · exact ih (min a y) h

theorem foldl_min_mem (xs : List ℚ) (a : ℚ) :
    xs.foldl min a = a ∨ xs.foldl min a ∈ xs := by
  induction xs generalizing a with
  | nil => exact Or.inl rfl
  | cons y ys ih =>
      rcases ih (min a y) with h | h
      · rcases min_choice a y with hm | hm
        · exact Or.inl (by rw [List.foldl_cons, h, hm])
        · exact Or.inr (by rw [List.foldl_cons, h, hm]; exact List.mem_cons_self y ys)
      · exact Or.inr (List.mem_cons_of_mem y h)

theorem pyMin_mem (l : List ℚ) (h : l ≠ []) : pyMin l ∈ l := by
  cases l with
  | nil => exact absurd rfl h
  | cons x xs =>
      rcases foldl_min_mem xs x with h1 | h1
      · rw [pyMin, h1]
        exact List.mem_cons_self x xs
      · exact List.mem_cons_of_mem x h1

theorem pyMin_le (l : List ℚ) (x : ℚ) (hx : x ∈ l) : pyMin l ≤ x := by
  cases l with
  | nil => cases hx
  | cons y ys =>
      rcases List.mem_cons.mp hx with h | h
      · subst h
        exact foldl_min_le_init ys x
      · exact foldl_min_le_mem ys y x h

theorem init_le_foldl_max (xs : List ℚ) (a : ℚ) : a ≤ xs.foldl max a := by
  induction xs generalizing a with
  | nil => simp
  | cons y ys ih => exact le_trans (le_max_left a y) (ih (max a y))

theorem mem_le_foldl_max (xs : List ℚ) (a x : ℚ) (hx : x ∈ xs) :
    x ≤ xs.foldl max a := by
  induction xs generalizing a with
  | nil => cases hx
  | cons y ys ih =>
      rcases List.mem_cons.mp hx with h | h
      · subst h
        exact le_trans (le_max_right a x) (init_le_foldl_max ys (max a x))
      · exact ih (max a y) h

theorem foldl_max_mem (xs : List ℚ) (a : ℚ) :
    xs.foldl max a = a ∨ xs.foldl max a ∈ xs := by
  induction xs generalizing a with
  | nil => exact Or.inl rfl
  | cons y ys ih =>
      rcases ih (max a y) with h | h
      · rcases max_choice a y with hm | hm
        · exact Or.inl (by rw [List.foldl_cons, h, hm])
        · exact Or.inr (by rw [List.foldl_cons, h, hm]; exact List.mem_cons_self y ys)
      · exact Or.inr (List.mem_cons_of_mem y h)

theorem pyMax_mem (l : List ℚ) (h : l ≠ []) : pyMax l ∈ l := by
  cases l with
  | nil => exact absurd rfl h
  | cons x xs =>
      rcases foldl_max_mem xs x with h1 | h1
      · rw [pyMax, h1]
        exact List.mem_cons_self x xs
      · exact List.mem_cons_of_mem x h1

theorem le_pyMax (l : List ℚ) (x : ℚ) (hx : x ∈ l) : x ≤ pyMax l := by
  cases l with
  | nil => cases hx
  | cons y ys =>
      rcases List.mem_cons.mp hx with h | h
      · subst h
        exact init_le_foldl_max ys x
      · exact mem_le_foldl_max ys y x h

/-- C1: with two or more successes, the summary's percentile fields are
the spec's inclusive-method percentiles of the successful latencies, min
and max are true extrema of the successful latencies, and mean is their
arithmetic mean; every field is a function of the successful latencies
alone, so failed results contribute to none of them. -/
theorem percentile_summary (results : List SearchResult)
    (h2 : 2 ≤ (successfulLatencies results).length) :
    ∃ stats : LatencyStats,
      (calculate_summary_stats results).latency = some stats ∧
      stats.p50 = inclusivePercentile (successfulLatencies results) 50 ∧
      stats.p90 = inclusivePercentile (successfulLatencies results) 90 ∧
      stats.p95 = inclusivePercentile (successfulLatencies results) 95 ∧
      stats.p99 = inclusivePercentile (successfulLatencies results) 99 ∧
      stats.min ∈ successfulLatencies results ∧
      (∀ x ∈ successfulLatencies results, stats.min ≤ x) ∧
      stats.max ∈ successfulLatencies results ∧
      (∀ x ∈ successfulLatencies results, x ≤ stats.max) ∧
      stats.mean = (successfulLatencies results).sum /
        ((successfulLatencies results).length : ℚ) := by
  simp only [successfulLatencies] at h2 ⊢
  have hlen :
      ((results.filter (fun r => r.success)).map (fun r => r.latency_ms)).length =
        (results.filter (fun r => r.success)).length := List.length_map _ _
  have hne : ¬ (results.filter (fun r => r.success)).isEmpty = true := by
    rw [List.isEmpty_iff]
    intro hc
    rw [hc] at h2
    simp at h2
  have h1 :
      ¬ ((results.filter (fun r => r.success)).map (fun r => r.latency_ms)).length
        = 1 := by
    omega
  have hnil :
      (results.filter (fun r => r.success)).map (fun r => r.latency_ms) ≠ [] := by
    intro hc
    rw [hc] at h2
    simp at h2
  simp only [calculate_summary_stats]
  rw [if_neg hne, if_neg h1]
  refine ⟨_, rfl, ?_, ?_, ?_, ?_, ?_, ?_, ?_, ?_, ?_⟩
  · simpa using quantile_cut_eq
      ((results.filter (fun r => r.success)).map (fun r => r.latency_ms)) 50
      (by norm_num) (by norm_num)
  · simpa using quantile_cut_eq
      ((results.filter (fun r => r.success)).map (fun r => r.latency_ms)) 90
      (by norm_num) (by norm_num)
  · simpa using quantile_cut_eq
      ((results.filter (fun r => r.success)).map (fun r => r.latency_ms)) 95
      (by norm_num) (by norm_num)
  · simpa using quantile_cut_eq
      ((results.filter (fun r => r.success)).map (fun r => r.latency_ms)) 99
      (by norm_num) (by norm_num)
  · exact pyMin_mem _ hnil
  · exact fun x hx => pyMin_le _ x hx
  · exact pyMax_mem _ hnil
  · exact fun x hx => le_pyMax _ x hx
  · rfl

/-- Witness for C1 at a concrete list with two successes and one failure. -/
theorem percentile_summary_witness :
    2 ≤ (successfulLatencies
        [SearchResult.mk true "w" "q1" 10 [] (some 200) none,
         SearchResult.mk false "w" "q3" 5 [] none (some "err"),
         SearchResult.mk true "w" "q2" 20 [] (some 200) none]).length ∧
    (∃ stats : LatencyStats,
      (calculate_summary_stats
          [SearchResult.mk true "w" "q1" 10 [] (some 200) none,
           SearchResult.mk false "w" "q3" 5 [] none (some "err"),
           SearchResult.mk true "w" "q2" 20 [] (some 200) none]).latency =
        some stats ∧
      stats.p50 = inclusivePercentile (successfulLatencies
        [SearchResult.mk true "w" "q1" 10 [] (some 200) none,
         SearchResult.mk false "w" "q3" 5 [] none (some "err"),
         SearchResult.mk true "w" "q2" 20 [] (some 200) none]) 50 ∧
      stats.p90 = inclusivePercentile (successfulLatencies
        [SearchResult.mk true "w" "q1" 10 [] (some 200) none,
         SearchResult.mk false "w" "q3" 5 [] none (some "err"),
         SearchResult.mk true "w" "q2" 20 [] (some 200) none]) 90 ∧
      stats.p95 = inclusivePercentile (successfulLatencies
        [SearchResult.mk true "w" "q1" 10 [] (some 200) none,
         SearchResult.mk false "w" "q3" 5 [] none (some "err"),
         SearchResult.mk true "w" "q2" 20 [] (some 200) none]) 95 ∧
      stats.p99 = inclusivePercentile (successfulLatencies
        [SearchResult.mk true "w" "q1" 10 [] (some 200) none,
         SearchResult.mk false "w" "q3" 5 [] none (some "err"),
         SearchResult.mk true "w" "q2" 20 [] (some 200) none]) 99 ∧
      stats.min ∈ successfulLatencies
        [SearchResult.mk true "w" "q1" 10 [] (some 200) none,
         SearchResult.mk false "w" "q3" 5 [] none (some "err"),
         SearchResult.mk true "w" "q2" 20 [] (some 200) none] ∧
      (∀ x ∈ successfulLatencies
        [SearchResult.mk true "w" "q1" 10 [] (some 200) none,
         SearchResult.mk false "w" "q3" 5 [] none (some "err"),
         SearchResult.mk true "w" "q2" 20 [] (some 200) none], stats.min ≤ x) ∧
      stats.max ∈ successfulLatencies
        [SearchResult.mk true "w" "q1" 10 [] (some 200) none,
         SearchResult.mk false "w" "q3" 5 [] none (some "err"),
         SearchResult.mk true "w" "q2" 20 [] (some 200) none] ∧
      (∀ x ∈ successfulLatencies
        [SearchResult.mk true "w" "q1" 10 [] (some 200) none,
         SearchResult.mk false "w" "q3" 5 [] none (some "err"),
         SearchResult.mk true "w" "q2" 20 [] (some 200) none], x ≤ stats.max) ∧
      stats.mean = (successfulLatencies
        [SearchResult.mk true "w" "q1" 10 [] (some 200) none,
         SearchResult.mk false "w" "q3" 5 [] none (some "err"),
         SearchResult.mk true "w" "q2" 20 [] (some 200) none]).sum /
        ((successfulLatencies
          [SearchResult.mk true "w" "q1" 10 [] (some 200) none,
           SearchResult.mk false "w" "q3" 5 [] none (some "err"),
           SearchResult.mk true "w" "q2" 20 [] (some 200) none]).length : ℚ)) :=
  ⟨by decide,
   percentile_summary
     [SearchResult.mk true "w" "q1" 10 [] (some 200) none,
      SearchResult.mk false "w" "q3" 5 [] none (some "err"),
      SearchResult.mk true "w" "q2" 20 [] (some 200) none] (by decide)⟩
